import Mathlib

/-!
# emby-vod-converter: the compute-once cache and the listing adapter

A shallow embedding of `cache.go` (the type `SafeCache` and its method
`ComputeIfAbsent`) and of the arithmetic and string construction of `main.go`
(`fetchAndConvertVideoList`, `upstreamUrl`).

Time is a count of nanoseconds on an explicit clock; a duration is a
non-negative span of nanoseconds. The store `github.com/akyoto/cache` and the
mutex `sync.Mutex` are libraries outside the sources; the store follows the
contract the specification gives for it (section 4.1), the mutex is a flag
that is set while the mutex is locked. A call of a library function takes no
time; the time a call of `ComputeIfAbsent` takes is the running time of
`computeFunc`.
-/

namespace EmbyVod

/-- A point in time, in nanoseconds (the value of `time.Now().UnixNano()`). -/
abbrev Time := Nat

/-- A span of time, in nanoseconds (`time.Duration`). -/
abbrev Duration := Nat

/-! ## The expiring key-value store -/

/-- Modelled from the spec: the `CacheEntry` of the expiring key-value store
(package `github.com/akyoto/cache`, which is imported by `cache.go` but is not
part of the sources): a value together with the time at which it expires. -/
structure CacheEntry (V : Type) where
  value : V
  expiresAt : Time

/-- Modelled from the spec: the expiring key-value store (type `cache.Cache`
of the imported package), a mapping from key to entry. -/
structure Cache (V : Type) where
  items : String → Option (CacheEntry V)

/-- Modelled from the spec: `cache.New`, the store without any entry. -/
def Cache.New {V : Type} : Cache V :=
  ⟨fun _ => none⟩

/-- Modelled from the spec: `get(key) -> (value, found)` of the store, read at
time `now`. It returns the value of a live entry; an entry whose expiry time
has passed is not returned, whether or not it has been removed physically.
`none` stands for the pair `(nil, false)` and `some v` for `(v, true)`. -/
def Cache.Get {V : Type} (c : Cache V) (now : Time) (key : String) : Option V :=
  match c.items key with
  | none => none
  | some entry => if now > entry.expiresAt then none else some entry.value

/-- Modelled from the spec: `set(key, value, ttl)` of the store, executed at
time `now`. It inserts or overwrites the entry of `key`; the expiry is fixed
at insertion time. -/
def Cache.Set {V : Type} (c : Cache V) (now : Time) (key : String) (value : V)
    (ttl : Duration) : Cache V :=
  ⟨fun k => if k = key then some ⟨value, now + ttl⟩ else c.items k⟩

/-- Modelled from the spec: the background sweep of the store at time `now`,
which removes the entries that have expired. -/
def Cache.sweep {V : Type} (c : Cache V) (now : Time) : Cache V :=
  ⟨fun k => match c.items k with
    | none => none
    | some entry => if now > entry.expiresAt then none else some entry⟩

/-! ## SafeCache -/

/-- The struct `SafeCache` of `cache.go`: the value store and the store of the
per-key lock handles. A lock handle is a pointer to a `sync.Mutex`, here the
address of the mutex. -/
structure SafeCache (V : Type) where
  cache : Cache V
  lockCache : Cache Nat

/-- The function `NewSafeCache` of `cache.go`. The argument is the interval of
the background sweep of both stores. -/
def NewSafeCache {V : Type} (_defaultExpiration : Duration) : SafeCache V :=
  { cache := Cache.New, lockCache := Cache.New }

/-- The state in which a call runs: the `SafeCache`, the mutexes allocated so
far (`held i` tells whether mutex `i` is locked, `fresh` is the next free
address) and the clock. -/
structure Machine (V : Type) where
  sc : SafeCache V
  held : Nat → Bool
  fresh : Nat
  now : Time

/-- The machine at start-up: a new `SafeCache`, no mutex locked. -/
def Machine.init {V : Type} (defaultExpiration : Duration) (now : Time) : Machine V :=
  { sc := NewSafeCache defaultExpiration, held := fun _ => false, fresh := 0, now := now }

/-- The clock moves on by `d`. -/
def Machine.advance {V : Type} (m : Machine V) (d : Duration) : Machine V :=
  { m with now := m.now + d }

/-- What a run of `computeFunc` produces: a value it returns, or a panic. -/
inductive Result (V E : Type) where
  | value (v : V)
  | panic (e : E)
  deriving DecidableEq

/-- The argument `computeFunc func() interface{}` as seen by the cache: what
one invocation produces and how long it runs. -/
structure ComputeFunc (V E : Type) where
  result : Result V E
  elapsed : Duration

/-- How a call of `ComputeIfAbsent` ends: it returns a value, it panics, or it
never gets the mutex. -/
inductive Outcome (V E : Type) where
  | returned (v : V)
  | panicked (e : E)
  | blocked
  deriving DecidableEq

/-- A finished call: how it ended, how many times it invoked `computeFunc`,
and the machine it leaves. -/
structure Call (V E : Type) where
  outcome : Outcome V E
  invoked : Nat
  state : Machine V

/-- Lines 25-26 of `cache.go`: allocate a new (unlocked) mutex and store its
address under `key` in the lock store with `duration`. Returns the address
and the machine. -/
def installLock {V : Type} (m : Machine V) (key : String) (duration : Duration) :
    Nat × Machine V :=
  (m.fresh,
    { m with
      sc := { m.sc with lockCache := m.sc.lockCache.Set m.now key m.fresh duration }
      held := fun i => if i = m.fresh then false else m.held i
      fresh := m.fresh + 1 })

/-- Lines 23-27 of `cache.go`: look the lock handle of `key` up in the lock
store; when there is none (`lock == nil`), install a new one. Returns the
handle and the machine. -/
def ensureLock {V : Type} (m : Machine V) (key : String) (duration : Duration) :
    Nat × Machine V :=
  match m.sc.lockCache.Get m.now key with
  | some lock => (lock, m)
  | none => installLock m key duration

/-- Modelled from the spec: the mutual-exclusion primitive of a lock handle
(`sync.Mutex`, not part of the sources), here the call `mutex.Unlock()`. -/
def mutexUnlock {V : Type} (m : Machine V) (mutex : Nat) : Machine V :=
  { m with held := fun i => if i = mutex then false else m.held i }

/-- Modelled from the spec: the mutual-exclusion primitive of a lock handle
(`sync.Mutex`, not part of the sources), here the call `mutex.Lock()` on a
mutex that is free; on a locked mutex the caller waits. -/
def mutexLock {V : Type} (m : Machine V) (mutex : Nat) : Machine V :=
  { m with held := fun i => if i = mutex then true else m.held i }

/-- Lines 34-42 of `cache.go`, run while `mutex` is held; the deferred
`mutex.Unlock()` runs on every way out. -/
def underLock {V E : Type} (m : Machine V) (mutex : Nat) (key : String)
    (computeFunc : ComputeFunc V E) (duration : Duration) : Call V E :=
  match m.sc.cache.Get m.now key with
  | some val => ⟨.returned val, 0, mutexUnlock m mutex⟩
  | none =>
    let m1 := m.advance computeFunc.elapsed
    match computeFunc.result with
    | .panic e => ⟨.panicked e, 1, mutexUnlock m1 mutex⟩
    | .value val =>
      let m2 := { m1 with sc := { m1.sc with cache := m1.sc.cache.Set m1.now key val duration } }
      ⟨.returned val, 1, mutexUnlock m2 mutex⟩

/-- The method `SafeCache.ComputeIfAbsent` of `cache.go`, run alone on the
machine `m`. -/
def ComputeIfAbsent {V E : Type} (m : Machine V) (key : String)
    (computeFunc : ComputeFunc V E) (duration : Duration) : Call V E :=
  let (mutex, m1) := ensureLock m key duration
  if m1.held mutex then ⟨.blocked, 0, m1⟩
  else underLock (mutexLock m1 mutex) mutex key computeFunc duration

/-- What a call that invokes `computeFunc` passes on to its caller: the value
returned, or the panic. -/
def Result.passedOn {V E : Type} : Result V E → Outcome V E
  | .value v => .returned v
  | .panic e => .panicked e

/-- No mutex is locked: no call is in progress. -/
def Machine.Idle {V : Type} (m : Machine V) : Prop :=
  ∀ i, m.held i = false

/-- The machine `m` with the clock at `t`. -/
def Machine.atTime {V : Type} (m : Machine V) (t : Time) : Machine V :=
  { m with now := t }

/-- One call in a sequence of calls for a key: the time that passes before
the call is made, and its arguments `computeFunc` and `duration`. -/
structure Request (V E : Type) where
  wait : Duration
  computeFunc : ComputeFunc V E
  duration : Duration

/-- A sequence of calls of `ComputeIfAbsent` for `key`, one after the other:
the outcomes in order, the total number of invocations of a `computeFunc`,
and the machine at the end. A call that never gets the mutex never returns,
so nothing runs after it. -/
def callsInOrder {V E : Type} (m : Machine V) (key : String) :
    List (Request V E) → List (Outcome V E) × Nat × Machine V
  | [] => ([], 0, m)
  | r :: rs =>
    let c := ComputeIfAbsent (m.advance r.wait) key r.computeFunc r.duration
    match c.outcome with
    | .blocked => ([.blocked], c.invoked, c.state)
    | out =>
      let rest := callsInOrder c.state key rs
      (out :: rest.1, c.invoked + rest.2.1, rest.2.2)

/-! ## Concurrent callers

Each caller of `ComputeIfAbsent` is a thread that executes the method one
operation on the shared stores or on a mutex at a time; a schedule chooses
which thread moves next. -/

/-- Where a caller stands inside `ComputeIfAbsent`, with its local variables
(`mutex` for the variables `lock`/`mutex`, `val` for `val`). -/
inductive Pc (V E : Type) where
  /-- Before line 23, `sc.lockCache.Get(key)`. -/
  | start
  /-- The handle was nil: before lines 25-26. -/
  | install
  /-- Before line 31, `mutex.Lock()`. -/
  | acquire (mutex : Nat)
  /-- Before line 35, `sc.cache.Get(key)`. -/
  | lookup (mutex : Nat)
  /-- Before line 38, about to invoke `computeFunc`. -/
  | compute (mutex : Nat)
  /-- Inside `computeFunc()`. -/
  | running (mutex : Nat)
  /-- Before line 39, `sc.cache.Set(key, val, duration)`. -/
  | store (mutex : Nat) (val : V)
  /-- Leaving the method: the deferred `mutex.Unlock()` is due. -/
  | unlock (mutex : Nat) (out : Outcome V E)
  /-- The call is over. -/
  | done (out : Outcome V E)

/-- A caller: the arguments of its call and where it stands. -/
structure Thread (V E : Type) where
  key : String
  computeFunc : ComputeFunc V E
  duration : Duration
  pc : Pc V E

/-- A caller that has not started yet. -/
def Thread.new {V E : Type} (key : String) (computeFunc : ComputeFunc V E)
    (duration : Duration) : Thread V E :=
  { key := key, computeFunc := computeFunc, duration := duration, pc := .start }

/-- The caller is inside `computeFunc`. -/
def Thread.inFlight {V E : Type} (t : Thread V E) : Bool :=
  match t.pc with
  | .running _ => true
  | _ => false

/-- How the call of the caller ended, once it is over. -/
def Thread.result {V E : Type} (t : Thread V E) : Option (Outcome V E) :=
  match t.pc with
  | .done out => some out
  | _ => none

/-- One operation of a caller on the shared machine: the machine and the
caller afterwards, and 1 when the operation starts an invocation of
`computeFunc`. `none` when the caller cannot move: it waits for a locked
mutex, or its call is over. -/
def Thread.step {V E : Type} (m : Machine V) (t : Thread V E) :
    Option (Machine V × Thread V E × Nat) :=
  match t.pc with
  | .start =>
    match m.sc.lockCache.Get m.now t.key with
    | some lock => some (m, { t with pc := .acquire lock }, 0)
    | none => some (m, { t with pc := .install }, 0)
  | .install =>
    let (lock, m1) := installLock m t.key t.duration
    some (m1, { t with pc := .acquire lock }, 0)
  | .acquire mutex =>
    if m.held mutex then none
    else some (mutexLock m mutex, { t with pc := .lookup mutex }, 0)
  | .lookup mutex =>
    match m.sc.cache.Get m.now t.key with
    | some val => some (m, { t with pc := .unlock mutex (.returned val) }, 0)
    | none => some (m, { t with pc := .compute mutex }, 0)
  | .compute mutex => some (m, { t with pc := .running mutex }, 1)
  | .running mutex =>
    match t.computeFunc.result with
    | .panic e => some (m, { t with pc := .unlock mutex (.panicked e) }, 0)
    | .value val => some (m, { t with pc := .store mutex val }, 0)
  | .store mutex val =>
    some ({ m with sc := { m.sc with cache := m.sc.cache.Set m.now t.key val t.duration } },
      { t with pc := .unlock mutex (.returned val) }, 0)
  | .unlock mutex out => some (mutexUnlock m mutex, { t with pc := .done out }, 0)
  | .done _ => none

/-- The callers together with the machine they share, and the number of
invocations of a `computeFunc` started so far. -/
structure System (V E : Type) where
  machine : Machine V
  threads : List (Thread V E)
  invocations : Nat

/-- What the scheduler does next: let a caller do one operation, or let time
pass. -/
inductive Event where
  | run (thread : Nat)
  | tick (d : Duration)

/-- One event of the schedule; `none` when the chosen caller cannot move. -/
def System.step {V E : Type} (s : System V E) : Event → Option (System V E)
  | .tick d => some { s with machine := s.machine.advance d }
  | .run i =>
    match s.threads.get? i with
    | none => none
    | some t =>
      match t.step s.machine with
      | none => none
      | some (m, t1, n) =>
        some { machine := m, threads := s.threads.set i t1, invocations := s.invocations + n }

/-- A whole schedule, event by event. -/
def System.exec {V E : Type} (s : System V E) : List Event → Option (System V E)
  | [] => some s
  | e :: es =>
    match s.step e with
    | none => none
    | some s1 => s1.exec es

/-- The number of callers that are inside `computeFunc`. -/
def System.inFlight {V E : Type} (s : System V E) : Nat :=
  (s.threads.filter Thread.inFlight).length

/-- As many callers as listed, none started, on a cold cache: a new
`SafeCache`, so neither a lock handle nor a value entry for any key. -/
def System.cold {V E : Type} (threads : List (Thread V E)) : System V E :=
  { machine := Machine.init 0 0, threads := threads, invocations := 0 }

/-! ## The listing adapter (`main.go`) -/

/-- A value of the Go type `int` (64 bits, two's complement): the integer
`x` after wrap-around. -/
def wrapInt (x : Int) : Int :=
  (x + 2 ^ 63) % 2 ^ 64 - 2 ^ 63

/-- The page size: the literal `20` of `Limit=20`, of `page*20` and of
`TotalRecordCount/20` in `fetchAndConvertVideoList`. -/
def pageSize : Int := 20

/-- The page number `pg` the handler passes when the query has no `pg`:
`strconv.Atoi(c.DefaultQuery("pg", "1"))`. -/
def defaultPage : Int := 1

/-- The start index `fetchAndConvertVideoList` sends upstream for `page`:
`strconv.Itoa(page*20)`. -/
def StartIndex (page : Int) : Int :=
  wrapInt (page * 20)

/-- The page count `fetchAndConvertVideoList` reports for a total of
`total` records: `result.TotalRecordCount/20 + 1` (Go's division truncates
towards zero). -/
def PageCount (total : Int) : Int :=
  wrapInt (Int.tdiv total 20 + 1)

/-- The fields of Go's `url.URL` that `upstreamUrl` reads: `Scheme`, `Host`
and the result of the method `Port()`. -/
structure URL where
  Scheme : String
  Host : String
  Port : String

/-- The function `upstreamUrl` of `main.go` on the route parameter `account`.
The library functions `base64.StdEncoding.DecodeString` and `url.Parse` are
parameters; a failure of either makes the function panic with the error
(`log.Panic(err)`), here `Except.error`. -/
def upstreamUrl (decodeString : String → Except String String)
    (parse : String → Except String URL) (accountBase64 : String) : Except String String :=
  match decodeString accountBase64 with
  | .error err => .error err
  | .ok accountUrl =>
    match parse accountUrl with
    | .error err => .error err
    | .ok account => .ok (account.Scheme ++ "://" ++ account.Host ++ ":" ++ account.Port)

/-! ## Sample data -/

/-- A `computeFunc` that returns the value `"token"` after 7 ns. -/
def tokenFn : ComputeFunc String String :=
  { result := .value "token", elapsed := 7 }

/-- A `computeFunc` that returns the value `"other"` after 2 ns. -/
def otherFn : ComputeFunc String String :=
  { result := .value "other", elapsed := 2 }

/-- A `computeFunc` that panics with `"login failed"` after 3 ns. -/
def failFn : ComputeFunc String String :=
  { result := .panic "login failed", elapsed := 3 }

/-- A machine just started, at time 100. -/
def coldMachine : Machine String :=
  Machine.init 0 100

/-- A machine at time 107 on which `"token"` is stored for `"acct1"` until
time 117, with the lock handle of `"acct1"` installed. -/
def warmMachine : Machine String :=
  { sc :=
      { cache := (Cache.New).Set 107 "acct1" "token" 10
        lockCache := (Cache.New).Set 100 "acct1" 0 10 }
    held := fun _ => false
    fresh := 1
    now := 107 }

/-- Two callers for the key `"acct1"`, each with `tokenFn` and one hour. -/
def raceCallers : List (Thread String String) :=
  [Thread.new "acct1" tokenFn 3600000000000, Thread.new "acct1" tokenFn 3600000000000]

/-- A schedule of two callers up to the invocation of `computeFunc`: both
look the lock handle up before either installs one, then each installs and
locks a mutex of its own, finds no value entry and invokes `computeFunc`. -/
def raceUntilCompute : List Event :=
  [.run 0, .run 1, .run 0, .run 1, .run 0, .run 1, .run 0, .run 1, .run 0, .run 1]

/-- The rest of the schedule: both callers come back from `computeFunc`,
store, unlock and return. -/
def raceFinish : List Event :=
  [.run 0, .run 0, .run 0, .run 1, .run 1, .run 1]

/-- The route parameter `account` of a request: the base64 encoding of
`http://user:pw@emby.local:8096`. -/
def sampleAccount : String := "aHR0cDovL3VzZXI6cHdAZW1ieS5sb2NhbDo4MDk2"

/-- What `base64.StdEncoding.DecodeString` returns on `sampleAccount`. -/
def sampleDecodeString (s : String) : Except String String :=
  if s = sampleAccount then .ok "http://user:pw@emby.local:8096"
  else .error "illegal base64 data"

/-- What `url.Parse` returns on the decoded `sampleAccount`: scheme `http`,
`Host` `emby.local:8096`, and `8096` from `Port()`. -/
def sampleParse (s : String) : Except String URL :=
  if s = "http://user:pw@emby.local:8096" then
    .ok { Scheme := "http", Host := "emby.local:8096", Port := "8096" }
  else .error "parse error"

/-! ## The store -/

theorem Cache.Get_Set_self {V : Type} (c : Cache V) (t now : Time) (key : String) (v : V)
    (ttl : Duration) :
    (c.Set t key v ttl).Get now key = if now > t + ttl then none else some v := by
  simp [Cache.Get, Cache.Set]

theorem Cache.Get_Set_other {V : Type} (c : Cache V) (t now : Time) (key k : String) (v : V)
    (ttl : Duration) (h : k ≠ key) :
    (c.Set t key v ttl).Get now k = c.Get now k := by
  simp [Cache.Get, Cache.Set, h]

theorem Cache.items_Set_other {V : Type} (c : Cache V) (t : Time) (key k : String) (v : V)
    (ttl : Duration) (h : k ≠ key) :
    (c.Set t key v ttl).items k = c.items k := by
  simp [Cache.Set, h]

/-- An entry that is not returned now is not returned later either. -/
theorem Cache.Get_none_later {V : Type} (c : Cache V) (t t1 : Time) (key : String)
    (h : c.Get t key = none) (ht : t ≤ t1) : c.Get t1 key = none := by
  unfold Cache.Get at h ⊢
  cases hi : c.items key with
  | none => simp
  | some entry =>
    simp only [hi] at h ⊢
    by_cases hx : t > entry.expiresAt
    · have : t1 > entry.expiresAt := lt_of_lt_of_le hx ht
      simp [this]
    · simp [hx] at h

/-- The sweep does not change what the store returns. -/
theorem Cache.Get_sweep {V : Type} (c : Cache V) (t : Time) (key : String) :
    (c.sweep t).Get t key = c.Get t key := by
  unfold Cache.Get Cache.sweep
  cases hi : c.items key with
  | none => simp [hi]
  | some entry =>
    by_cases hx : t > entry.expiresAt <;> simp [hi, hx]

/-! ## One call on an idle machine -/

/-- At start-up no mutex is locked. -/
theorem Machine.init_idle {V : Type} (defaultExpiration : Duration) (now : Time) :
    (Machine.init defaultExpiration now : Machine V).Idle :=
  fun _ => rfl

theorem ensureLock_free {V : Type} (m : Machine V) (key : String) (duration : Duration)
    (hidle : m.Idle) :
    (ensureLock m key duration).2.held (ensureLock m key duration).1 = false := by
  unfold ensureLock
  cases h : m.sc.lockCache.Get m.now key with
  | some lock => simpa using hidle lock
  | none => simp [installLock]

theorem ensureLock_cache {V : Type} (m : Machine V) (key : String) (duration : Duration) :
    (ensureLock m key duration).2.sc.cache = m.sc.cache ∧
      (ensureLock m key duration).2.now = m.now := by
  unfold ensureLock
  cases h : m.sc.lockCache.Get m.now key <;> simp [installLock]

theorem ensureLock_lockCache_other {V : Type} (m : Machine V) (key k : String)
    (duration : Duration) (h : k ≠ key) :
    (ensureLock m key duration).2.sc.lockCache.items k = m.sc.lockCache.items k := by
  unfold ensureLock
  cases hg : m.sc.lockCache.Get m.now key <;> simp [installLock, Cache.Set, h]

theorem ensureLock_idle {V : Type} (m : Machine V) (key : String) (duration : Duration)
    (hidle : m.Idle) (i : Nat) :
    (ensureLock m key duration).2.held i = false := by
  unfold ensureLock
  cases h : m.sc.lockCache.Get m.now key with
  | some lock => simpa using hidle i
  | none =>
    by_cases hi : i = m.fresh
    · simp [installLock, hi]
    · simpa [installLock, hi] using hidle i

/-- On an idle machine the call gets its mutex at once. -/
theorem ComputeIfAbsent_eq_underLock {V E : Type} (m : Machine V) (key : String)
    (f : ComputeFunc V E) (duration : Duration) (hidle : m.Idle) :
    ComputeIfAbsent m key f duration =
      underLock (mutexLock (ensureLock m key duration).2 (ensureLock m key duration).1)
        (ensureLock m key duration).1 key f duration := by
  have h := ensureLock_free m key duration hidle
  unfold ComputeIfAbsent
  simp [h]

/-- A call that finds a live value entry returns it, invokes nothing, leaves
the value store and the clock as they are and unlocks every mutex. -/
theorem ComputeIfAbsent_hit {V E : Type} (m : Machine V) (key : String)
    (f : ComputeFunc V E) (duration : Duration) (v : V) (hidle : m.Idle)
    (hhit : m.sc.cache.Get m.now key = some v) :
    (ComputeIfAbsent m key f duration).outcome = .returned v ∧
      (ComputeIfAbsent m key f duration).invoked = 0 ∧
      (ComputeIfAbsent m key f duration).state.sc.cache = m.sc.cache ∧
      (ComputeIfAbsent m key f duration).state.now = m.now ∧
      (ComputeIfAbsent m key f duration).state.Idle := by
  obtain ⟨hc, hn⟩ := ensureLock_cache m key duration
  have hfree := ensureLock_idle m key duration hidle
  rw [ComputeIfAbsent_eq_underLock m key f duration hidle]
  have hget : (mutexLock (ensureLock m key duration).2
      (ensureLock m key duration).1).sc.cache.Get
      (mutexLock (ensureLock m key duration).2 (ensureLock m key duration).1).now key
      = some v := by
    simpa [mutexLock, hc, hn] using hhit
  unfold underLock
  rw [hget]
  refine ⟨rfl, rfl, ?_, ?_, ?_⟩
  · simp [mutexUnlock, mutexLock, hc]
  · simp [mutexUnlock, mutexLock, hn]
  · intro i
    by_cases hi : i = (ensureLock m key duration).1
    · simp [mutexUnlock, hi]
    · simpa [mutexUnlock, mutexLock, hi] using hfree i

/-- A call that finds no live value entry invokes `computeFunc` once and
passes its result on; the clock has moved by the running time of
`computeFunc`, every mutex is unlocked, and the value store has changed
only if a value was returned, then by the entry of `key`. -/
theorem ComputeIfAbsent_miss {V E : Type} (m : Machine V) (key : String)
    (f : ComputeFunc V E) (duration : Duration) (hidle : m.Idle)
    (hmiss : m.sc.cache.Get m.now key = none) :
    (ComputeIfAbsent m key f duration).outcome = f.result.passedOn ∧
      (ComputeIfAbsent m key f duration).invoked = 1 ∧
      (ComputeIfAbsent m key f duration).state.now = m.now + f.elapsed ∧
      (ComputeIfAbsent m key f duration).state.Idle ∧
      (ComputeIfAbsent m key f duration).state.sc.cache =
        (match f.result with
          | .value v => m.sc.cache.Set (m.now + f.elapsed) key v duration
          | .panic _ => m.sc.cache) := by
  obtain ⟨hc, hn⟩ := ensureLock_cache m key duration
  have hfree := ensureLock_idle m key duration hidle
  rw [ComputeIfAbsent_eq_underLock m key f duration hidle]
  have hget : (mutexLock (ensureLock m key duration).2
      (ensureLock m key duration).1).sc.cache.Get
      (mutexLock (ensureLock m key duration).2 (ensureLock m key duration).1).now key
      = none := by
    simpa [mutexLock, hc, hn] using hmiss
  have hidle2 : ∀ (x : Machine V), x.held = (mutexLock (ensureLock m key duration).2
      (ensureLock m key duration).1).held →
      (mutexUnlock x (ensureLock m key duration).1).Idle := by
    intro x hx i
    by_cases hi : i = (ensureLock m key duration).1
    · simp [mutexUnlock, hi]
    · simpa [mutexUnlock, mutexLock, hx, hi] using hfree i
  unfold underLock
  rw [hget]
  cases hr : f.result with
  | value v =>
    refine ⟨rfl, rfl, ?_, ?_, ?_⟩
    · simp [mutexUnlock, mutexLock, Machine.advance, hn]
    · exact hidle2 _ rfl
    · simp [mutexUnlock, mutexLock, Machine.advance, hn, hc]
  | panic e =>
    refine ⟨rfl, rfl, ?_, ?_, ?_⟩
    · simp [mutexUnlock, mutexLock, Machine.advance, hn]
    · exact hidle2 _ rfl
    · simp [mutexUnlock, mutexLock, Machine.advance, hc]

/-- A call for `key` leaves the value-store entry and the lock handle of
every other key as they are, however it ends. -/
theorem ComputeIfAbsent_frame {V E : Type} (m : Machine V) (key k : String)
    (f : ComputeFunc V E) (duration : Duration) (h : k ≠ key) :
    (ComputeIfAbsent m key f duration).state.sc.cache.items k = m.sc.cache.items k ∧
      (ComputeIfAbsent m key f duration).state.sc.lockCache.items k =
        m.sc.lockCache.items k := by
  obtain ⟨hc, hn⟩ := ensureLock_cache m key duration
  have hl := ensureLock_lockCache_other m key k duration h
  unfold ComputeIfAbsent
  simp only []
  split
  · exact ⟨by rw [hc], hl⟩
  · unfold underLock
    split
    · exact ⟨by simp [mutexUnlock, mutexLock, hc], by simpa [mutexUnlock, mutexLock] using hl⟩
    · cases hr : f.result with
      | value v =>
        exact ⟨by simp [mutexUnlock, mutexLock, Machine.advance, Cache.Set, h, hc],
          by simpa [mutexUnlock, mutexLock, Machine.advance] using hl⟩
      | panic e =>
        exact ⟨by simp [mutexUnlock, mutexLock, Machine.advance, hc],
          by simpa [mutexUnlock, mutexLock, Machine.advance] using hl⟩

/-- A miss whose `computeFunc` returns `v`: one invocation, `v` returned and
stored with the expiry `ttl` after the time of the store. -/
theorem ComputeIfAbsent_miss_value {V E : Type} (m : Machine V)
    (key : String) (f : ComputeFunc V E) (ttl : Duration) (v : V) (hidle : m.Idle)
    (hmiss : m.sc.cache.Get m.now key = none) (hf : f.result = .value v) :
    (ComputeIfAbsent m key f ttl).invoked = 1 ∧
      (ComputeIfAbsent m key f ttl).outcome = .returned v ∧
      (ComputeIfAbsent m key f ttl).state.sc.cache.items key =
        some ⟨v, (ComputeIfAbsent m key f ttl).state.now + ttl⟩ ∧
      (ComputeIfAbsent m key f ttl).state.sc.cache.Get
        (ComputeIfAbsent m key f ttl).state.now key = some v := by
  obtain ⟨ho, hi, hn, -, hc⟩ := ComputeIfAbsent_miss m key f ttl hidle hmiss
  rw [hf] at ho hc
  simp only [] at hc
  refine ⟨hi, ho, ?_, ?_⟩
  · rw [hc, hn]; simp [Cache.Set]
  · rw [hc, hn, Cache.Get_Set_self]; simp

/-- A call on a machine with no call in progress is not blocked and leaves
no mutex locked. -/
theorem ComputeIfAbsent_idle {V E : Type} (m : Machine V) (key : String)
    (f : ComputeFunc V E) (duration : Duration) (hidle : m.Idle) :
    (ComputeIfAbsent m key f duration).outcome ≠ .blocked ∧
      (ComputeIfAbsent m key f duration).state.Idle := by
  cases hget : m.sc.cache.Get m.now key with
  | some v =>
    obtain ⟨ho, -, -, -, hi⟩ := ComputeIfAbsent_hit m key f duration v hidle hget
    exact ⟨by rw [ho]; simp, hi⟩
  | none =>
    obtain ⟨ho, -, -, hi, -⟩ := ComputeIfAbsent_miss m key f duration hidle hget
    refine ⟨?_, hi⟩
    rw [ho]
    cases f.result <;> simp [Result.passedOn]

/-- On a machine with no call in progress, how a call ends and whether it
invokes `computeFunc` is decided by what the value store returns for `key`. -/
theorem ComputeIfAbsent_decided_by_Get {V E : Type} (m : Machine V) (key : String)
    (f : ComputeFunc V E) (duration : Duration) (hidle : m.Idle) :
    (ComputeIfAbsent m key f duration).outcome =
        (match m.sc.cache.Get m.now key with
          | some v => .returned v
          | none => f.result.passedOn) ∧
      (ComputeIfAbsent m key f duration).invoked =
        (match m.sc.cache.Get m.now key with
          | some _ => 0
          | none => 1) := by
  cases hget : m.sc.cache.Get m.now key with
  | some v =>
    obtain ⟨ho, hi, -, -, -⟩ := ComputeIfAbsent_hit m key f duration v hidle hget
    exact ⟨ho, hi⟩
  | none =>
    obtain ⟨ho, hi, -, -, -⟩ := ComputeIfAbsent_miss m key f duration hidle hget
    exact ⟨ho, hi⟩

/-- Calls made one after the other while the entry `v` of `key` is live all
return `v`, invoke nothing and leave the value store as it is. -/
theorem callsInOrder_hits {V E : Type} (key : String) (v : V) (e : Time) :
    ∀ (rs : List (Request V E)) (m : Machine V), m.Idle →
      m.sc.cache.items key = some ⟨v, e⟩ →
      m.now + (rs.map Request.wait).sum ≤ e →
      (callsInOrder m key rs).1 = List.replicate rs.length (.returned v) ∧
        (callsInOrder m key rs).2.1 = 0 ∧
        (callsInOrder m key rs).2.2.sc.cache = m.sc.cache := by
  intro rs
  induction rs with
  | nil => intro m _ _ _; simp [callsInOrder]
  | cons r rs ih =>
    intro m hidle hitem hle
    have hsum : m.now + (r.wait + (rs.map Request.wait).sum) ≤ e := by
      simpa using hle
    have hidle1 : (m.advance r.wait).Idle := fun i => hidle i
    have hnow1 : (m.advance r.wait).now = m.now + r.wait := rfl
    have hcache1 : (m.advance r.wait).sc.cache = m.sc.cache := rfl
    have hlive : ¬ (m.now + r.wait > e) := by
      have : m.now + r.wait ≤ e := le_trans (by
        show m.now + r.wait ≤ m.now + (r.wait + (rs.map Request.wait).sum)
        exact Nat.add_le_add_left (Nat.le_add_right _ _) _) hsum
      exact Nat.not_lt.mpr this
    have hhit : (m.advance r.wait).sc.cache.Get (m.advance r.wait).now key = some v := by
      rw [hcache1, hnow1]
      unfold Cache.Get
      rw [hitem]
      simp only []
      rw [if_neg hlive]
    obtain ⟨ho, hi, hc, hn, hidle2⟩ :=
      ComputeIfAbsent_hit (m.advance r.wait) key r.computeFunc r.duration v hidle1 hhit
    have hitem2 : (ComputeIfAbsent (m.advance r.wait) key r.computeFunc
        r.duration).state.sc.cache.items key = some ⟨v, e⟩ := by
      rw [hc, hcache1]; exact hitem
    have hle2 : (ComputeIfAbsent (m.advance r.wait) key r.computeFunc r.duration).state.now
        + (rs.map Request.wait).sum ≤ e := by
      rw [hn, hnow1, Nat.add_assoc]; exact hsum
    obtain ⟨h1, h2, h3⟩ := ih _ hidle2 hitem2 hle2
    simp only [callsInOrder, ho, hi, h1, h2, h3, hc, hcache1, List.length_cons,
      List.replicate_succ, Nat.add_zero, and_self]

/-- Calls made one after the other from a machine with no call in progress
are never blocked and leave no mutex locked. -/
theorem callsInOrder_idle {V E : Type} (key : String) :
    ∀ (rs : List (Request V E)) (m : Machine V), m.Idle →
      (callsInOrder m key rs).2.2.Idle ∧ Outcome.blocked ∉ (callsInOrder m key rs).1 := by
  intro rs
  induction rs with
  | nil => intro m hidle; exact ⟨hidle, by simp [callsInOrder]⟩
  | cons r rs ih =>
    intro m hidle
    have hidle1 : (m.advance r.wait).Idle := fun i => hidle i
    obtain ⟨hnb, hidle2⟩ :=
      ComputeIfAbsent_idle (m.advance r.wait) key r.computeFunc r.duration hidle1
    obtain ⟨h1, h2⟩ := ih _ hidle2
    cases ho : (ComputeIfAbsent (m.advance r.wait) key r.computeFunc r.duration).outcome with
    | blocked => exact absurd ho hnb
    | returned v =>
      simp only [callsInOrder, ho]
      exact ⟨h1, by simpa using h2⟩
    | panicked e =>
      simp only [callsInOrder, ho]
      exact ⟨h1, by simpa using h2⟩

/-! ## The claims on single calls -/

/-- C1: miss path. On a machine with no call in progress whose value store
has no live entry for `key`, a call whose `computeFunc` returns `v` invokes
`computeFunc` exactly once, returns `v`, and leaves the value store holding
`v` under `key` with the expiry `ttl` after the time of the store, so that an
immediate `Get` of `key` on the value store yields `v`, found. -/
theorem C1_miss_computes_once_stores_and_returns {V E : Type} (m : Machine V)
    (key : String) (f : ComputeFunc V E) (ttl : Duration) (v : V) (hidle : m.Idle)
    (hmiss : m.sc.cache.Get m.now key = none) (hf : f.result = .value v) :
    (ComputeIfAbsent m key f ttl).invoked = 1 ∧
      (ComputeIfAbsent m key f ttl).outcome = .returned v ∧
      (ComputeIfAbsent m key f ttl).state.sc.cache.items key =
        some ⟨v, (ComputeIfAbsent m key f ttl).state.now + ttl⟩ ∧
      (ComputeIfAbsent m key f ttl).state.sc.cache.Get
        (ComputeIfAbsent m key f ttl).state.now key = some v := by
  obtain ⟨hout, hinv, hnow, -, hcache⟩ := ComputeIfAbsent_miss m key f ttl hidle hmiss
  rw [hf] at hout hcache
  simp only [] at hcache
  refine ⟨hinv, hout, ?_, ?_⟩
  · rw [hcache, hnow]
    simp [Cache.Set]
  · rw [hcache, hnow, Cache.Get_Set_self]
    simp

/-- C1 at the first call for `"acct1"` on a machine just started. -/
theorem C1_witness :
    coldMachine.Idle ∧ (ComputeIfAbsent coldMachine "acct1" tokenFn 10).invoked = 1 ∧
      (ComputeIfAbsent coldMachine "acct1" tokenFn 10).outcome = .returned "token" ∧
      (ComputeIfAbsent coldMachine "acct1" tokenFn 10).state.sc.cache.items "acct1" =
        some ⟨"token", (ComputeIfAbsent coldMachine "acct1" tokenFn 10).state.now + 10⟩ ∧
      (ComputeIfAbsent coldMachine "acct1" tokenFn 10).state.sc.cache.Get
        (ComputeIfAbsent coldMachine "acct1" tokenFn 10).state.now "acct1" = some "token" :=
  ⟨fun _ => rfl,
    C1_miss_computes_once_stores_and_returns coldMachine "acct1" tokenFn 10 "token"
      (fun _ => rfl) rfl rfl⟩

/-- C2: hit path. On a machine with no call in progress whose value store
holds a live entry `v` for `key`, a call returns exactly `v`, does not invoke
`computeFunc`, and leaves the value store as it is: the value and the expiry
of the entry are unchanged. -/
theorem C2_hit_returns_stored_without_computing {V E : Type} (m : Machine V)
    (key : String) (f : ComputeFunc V E) (ttl : Duration) (v : V) (hidle : m.Idle)
    (hhit : m.sc.cache.Get m.now key = some v) :
    (ComputeIfAbsent m key f ttl).outcome = .returned v ∧
      (ComputeIfAbsent m key f ttl).invoked = 0 ∧
      (ComputeIfAbsent m key f ttl).state.sc.cache = m.sc.cache ∧
      (ComputeIfAbsent m key f ttl).state.sc.cache.items key = m.sc.cache.items key := by
  obtain ⟨ho, hi, hc, -, -⟩ := ComputeIfAbsent_hit m key f ttl v hidle hhit
  exact ⟨ho, hi, hc, by rw [hc]⟩

/-- C2 at a call for `"acct1"` on `warmMachine`, where `"token"` is live. -/
theorem C2_witness :
    warmMachine.Idle ∧ warmMachine.sc.cache.Get warmMachine.now "acct1" = some "token" ∧
      (ComputeIfAbsent warmMachine "acct1" otherFn 50).outcome = .returned "token" ∧
      (ComputeIfAbsent warmMachine "acct1" otherFn 50).invoked = 0 ∧
      (ComputeIfAbsent warmMachine "acct1" otherFn 50).state.sc.cache = warmMachine.sc.cache ∧
      (ComputeIfAbsent warmMachine "acct1" otherFn 50).state.sc.cache.items "acct1" =
        warmMachine.sc.cache.items "acct1" :=
  ⟨fun _ => rfl, by decide,
    C2_hit_returns_stored_without_computing warmMachine "acct1" otherFn 50 "token"
      (fun _ => rfl) (by decide)⟩

/-- C4: a failing computation is propagated and never cached. On a machine
with no call in progress and no live value entry for `key`, a call whose
`computeFunc` panics with `e` panics with the same `e`, leaves the value store
as it was (so still without a live entry for `key`), and the call for `key`
that follows at once invokes its own `computeFunc` and ends the way that
function ends. -/
theorem C4_failure_propagated_not_cached {V E : Type} (m : Machine V) (key : String)
    (f g : ComputeFunc V E) (ttl ttl2 : Duration) (e : E) (hidle : m.Idle)
    (hmiss : m.sc.cache.Get m.now key = none) (hf : f.result = .panic e) :
    (ComputeIfAbsent m key f ttl).outcome = .panicked e ∧
      (ComputeIfAbsent m key f ttl).state.sc.cache = m.sc.cache ∧
      (ComputeIfAbsent m key f ttl).state.sc.cache.Get
        (ComputeIfAbsent m key f ttl).state.now key = none ∧
      (ComputeIfAbsent (ComputeIfAbsent m key f ttl).state key g ttl2).invoked = 1 ∧
      (ComputeIfAbsent (ComputeIfAbsent m key f ttl).state key g ttl2).outcome =
        g.result.passedOn := by
  obtain ⟨ho, -, hn, hi, hc⟩ := ComputeIfAbsent_miss m key f ttl hidle hmiss
  rw [hf] at ho hc
  simp only [] at hc
  have hstill : (ComputeIfAbsent m key f ttl).state.sc.cache.Get
      (ComputeIfAbsent m key f ttl).state.now key = none := by
    rw [hc, hn]
    exact Cache.Get_none_later _ _ _ _ hmiss (Nat.le_add_right _ _)
  obtain ⟨ho2, hi2, -, -, -⟩ :=
    ComputeIfAbsent_miss (ComputeIfAbsent m key f ttl).state key g ttl2 hi hstill
  exact ⟨ho, hc, hstill, hi2, ho2⟩

/-- C4 at a failing first call for `"acct1"` followed by a call that returns. -/
theorem C4_witness :
    coldMachine.Idle ∧
      (ComputeIfAbsent coldMachine "acct1" failFn 10).outcome = .panicked "login failed" ∧
      (ComputeIfAbsent coldMachine "acct1" failFn 10).state.sc.cache = coldMachine.sc.cache ∧
      (ComputeIfAbsent coldMachine "acct1" failFn 10).state.sc.cache.Get
        (ComputeIfAbsent coldMachine "acct1" failFn 10).state.now "acct1" = none ∧
      (ComputeIfAbsent (ComputeIfAbsent coldMachine "acct1" failFn 10).state "acct1"
        tokenFn 10).invoked = 1 ∧
      (ComputeIfAbsent (ComputeIfAbsent coldMachine "acct1" failFn 10).state "acct1"
        tokenFn 10).outcome = tokenFn.result.passedOn :=
  ⟨fun _ => rfl,
    C4_failure_propagated_not_cached coldMachine "acct1" failFn tokenFn 10 10 "login failed"
      (fun _ => rfl) rfl rfl⟩

/-- C5: the per-key mutex is released on every way out. On a machine with no
call in progress, every call (a hit, a miss whose `computeFunc` returns, a
miss whose `computeFunc` panics) gets the mutex of `key`, has unlocked it
when it ends, leaves no mutex locked, and the next call for `key` is not
blocked. -/
theorem C5_mutex_released_on_every_exit {V E : Type} (m : Machine V) (key : String)
    (f g : ComputeFunc V E) (ttl ttl2 : Duration) (hidle : m.Idle) :
    (ComputeIfAbsent m key f ttl).outcome ≠ .blocked ∧
      (ComputeIfAbsent m key f ttl).state.held (ensureLock m key ttl).1 = false ∧
      (ComputeIfAbsent m key f ttl).state.Idle ∧
      (ComputeIfAbsent (ComputeIfAbsent m key f ttl).state key g ttl2).outcome ≠ .blocked := by
  obtain ⟨h1, h2⟩ := ComputeIfAbsent_idle m key f ttl hidle
  exact ⟨h1, h2 _, h2, (ComputeIfAbsent_idle _ key g ttl2 h2).1⟩

/-- C5 at a failing first call for `"acct1"` followed by another call. -/
theorem C5_witness :
    coldMachine.Idle ∧
      (ComputeIfAbsent coldMachine "acct1" failFn 10).outcome ≠ .blocked ∧
      (ComputeIfAbsent coldMachine "acct1" failFn 10).state.held
        (ensureLock coldMachine "acct1" 10).1 = false ∧
      (ComputeIfAbsent coldMachine "acct1" failFn 10).state.Idle ∧
      (ComputeIfAbsent (ComputeIfAbsent coldMachine "acct1" failFn 10).state "acct1"
        tokenFn 10).outcome ≠ .blocked :=
  ⟨fun _ => rfl,
    C5_mutex_released_on_every_exit coldMachine "acct1" failFn tokenFn 10 10 (fun _ => rfl)⟩

/-- C6: expiry forces recomputation. If a call for `key` with `ttl` stored a
value (at the time `t` at which that call ends) and the next call for `key`
is made at a time later than `t + ttl`, that call invokes its `computeFunc`,
returns the value `w` newly computed instead of the old one, and stores
it. -/
theorem C6_expiry_forces_recomputation {V E : Type} (m : Machine V) (key : String)
    (f g : ComputeFunc V E) (ttl ttl2 wait : Duration) (v w : V) (hidle : m.Idle)
    (hmiss : m.sc.cache.Get m.now key = none) (hf : f.result = .value v)
    (hlate : ttl < wait) (hg : g.result = .value w) :
    (ComputeIfAbsent ((ComputeIfAbsent m key f ttl).state.advance wait) key g ttl2).invoked = 1 ∧
      (ComputeIfAbsent ((ComputeIfAbsent m key f ttl).state.advance wait) key g ttl2).outcome =
        .returned w ∧
      (ComputeIfAbsent ((ComputeIfAbsent m key f ttl).state.advance wait) key g
        ttl2).state.sc.cache.items key =
        some ⟨w, (ComputeIfAbsent ((ComputeIfAbsent m key f ttl).state.advance wait) key g
          ttl2).state.now + ttl2⟩ := by
  obtain ⟨-, -, hn, hi, hc⟩ := ComputeIfAbsent_miss m key f ttl hidle hmiss
  rw [hf] at hc
  simp only [] at hc
  have hidle2 : ((ComputeIfAbsent m key f ttl).state.advance wait).Idle := fun i => hi i
  have hgone : ((ComputeIfAbsent m key f ttl).state.advance wait).sc.cache.Get
      ((ComputeIfAbsent m key f ttl).state.advance wait).now key = none := by
    have h1 : ((ComputeIfAbsent m key f ttl).state.advance wait).sc.cache =
        (ComputeIfAbsent m key f ttl).state.sc.cache := rfl
    have h2 : ((ComputeIfAbsent m key f ttl).state.advance wait).now =
        (ComputeIfAbsent m key f ttl).state.now + wait := rfl
    rw [h1, h2, hc, hn, Cache.Get_Set_self]
    have : m.now + f.elapsed + wait > m.now + f.elapsed + ttl := Nat.add_lt_add_left hlate _
    simp [this]
  obtain ⟨h1, h2, h3, -⟩ := ComputeIfAbsent_miss_value _ key g ttl2 w hidle2 hgone hg
  exact ⟨h1, h2, h3⟩

/-- C6 at a store with ttl 10 and a next call 11 ns after it. -/
theorem C6_witness :
    coldMachine.Idle ∧ (10 : Duration) < 11 ∧
      (ComputeIfAbsent ((ComputeIfAbsent coldMachine "acct1" tokenFn 10).state.advance 11)
        "acct1" otherFn 10).invoked = 1 ∧
      (ComputeIfAbsent ((ComputeIfAbsent coldMachine "acct1" tokenFn 10).state.advance 11)
        "acct1" otherFn 10).outcome = .returned "other" ∧
      (ComputeIfAbsent ((ComputeIfAbsent coldMachine "acct1" tokenFn 10).state.advance 11)
        "acct1" otherFn 10).state.sc.cache.items "acct1" =
        some ⟨"other", (ComputeIfAbsent
          ((ComputeIfAbsent coldMachine "acct1" tokenFn 10).state.advance 11)
          "acct1" otherFn 10).state.now + 10⟩ :=
  ⟨fun _ => rfl, by decide,
    C6_expiry_forces_recomputation coldMachine "acct1" tokenFn otherFn 10 10 11 "token" "other"
      (fun _ => rfl) rfl rfl (by decide) rfl⟩

/-! ## The claims on sequences of calls -/

/-- C3: no redundant work after a store. On a machine with no call in
progress and no live value entry for `key`, let a first call store `v`
under `key` with `ttl`, and let any number of calls for `key` follow one
after the other, with any `computeFunc` and any ttl argument, the last of
them (so each of them) made no later than `ttl` after the store, that is
before the entry expires. Then every one of the following calls returns `v`
and invokes nothing, every call of the whole sequence returns `v`, and the
number of invocations over the whole sequence is exactly 1. -/
theorem C3_one_computation_per_stored_key {V E : Type} (m : Machine V) (key : String)
    (f : ComputeFunc V E) (ttl : Duration) (v : V) (rs : List (Request V E))
    (hidle : m.Idle) (hmiss : m.sc.cache.Get m.now key = none) (hf : f.result = .value v)
    (hlive : (rs.map Request.wait).sum ≤ ttl) :
    (callsInOrder (ComputeIfAbsent m key f ttl).state key rs).1 =
        List.replicate rs.length (.returned v) ∧
      (callsInOrder (ComputeIfAbsent m key f ttl).state key rs).2.1 = 0 ∧
      (callsInOrder m key (⟨0, f, ttl⟩ :: rs)).1 =
        List.replicate (rs.length + 1) (.returned v) ∧
      (callsInOrder m key (⟨0, f, ttl⟩ :: rs)).2.1 = 1 := by
  obtain ⟨hinv, hout, hitem, -⟩ := ComputeIfAbsent_miss_value m key f ttl v hidle hmiss hf
  obtain ⟨-, hidle1⟩ := ComputeIfAbsent_idle m key f ttl hidle
  have hle : (ComputeIfAbsent m key f ttl).state.now + (rs.map Request.wait).sum ≤
      (ComputeIfAbsent m key f ttl).state.now + ttl := Nat.add_le_add_left hlive _
  obtain ⟨h1, h2, -⟩ := callsInOrder_hits key v _ rs _ hidle1 hitem hle
  have hadv : m.advance 0 = m := rfl
  refine ⟨h1, h2, ?_, ?_⟩
  · simp only [callsInOrder, hadv, hout, h1, List.replicate_succ]
  · simp only [callsInOrder, hadv, hout, hinv, h2]

/-- C3 at a first call with ttl 10 followed by calls 3 ns and 7 ns after it. -/
theorem C3_witness :
    coldMachine.Idle ∧
      (([⟨3, otherFn, 50⟩, ⟨4, failFn, 1⟩] : List (Request String String)).map
        Request.wait).sum ≤ 10 ∧
      (callsInOrder (ComputeIfAbsent coldMachine "acct1" tokenFn 10).state "acct1"
        [⟨3, otherFn, 50⟩, ⟨4, failFn, 1⟩]).1 = List.replicate 2 (.returned "token") ∧
      (callsInOrder (ComputeIfAbsent coldMachine "acct1" tokenFn 10).state "acct1"
        [⟨3, otherFn, 50⟩, ⟨4, failFn, 1⟩]).2.1 = 0 ∧
      (callsInOrder coldMachine "acct1"
        [⟨0, tokenFn, 10⟩, ⟨3, otherFn, 50⟩, ⟨4, failFn, 1⟩]).1 =
        List.replicate 3 (.returned "token") ∧
      (callsInOrder coldMachine "acct1"
        [⟨0, tokenFn, 10⟩, ⟨3, otherFn, 50⟩, ⟨4, failFn, 1⟩]).2.1 = 1 :=
  ⟨fun _ => rfl, by decide,
    C3_one_computation_per_stored_key coldMachine "acct1" tokenFn 10 "token"
      [⟨3, otherFn, 50⟩, ⟨4, failFn, 1⟩] (fun _ => rfl) rfl rfl (by decide)⟩

/-- C7: key isolation. For distinct keys `K` and `K2`, a call for `K` on a
machine with no call in progress, whether its `computeFunc` returns or
panics, leaves the value-store entry and the lock handle of `K2` as they
are; a later call for `K2` ends the same way, and invokes its `computeFunc`
as often, as it does at the same time on the machine on which the call for
`K` never happened. No mutex has changed either. -/
theorem C7_key_isolation {V E : Type} (m : Machine V) (K K2 : String)
    (f g : ComputeFunc V E) (ttl ttl2 wait : Duration) (hne : K ≠ K2) (hidle : m.Idle) :
    (ComputeIfAbsent m K f ttl).state.sc.cache.items K2 = m.sc.cache.items K2 ∧
      (ComputeIfAbsent m K f ttl).state.sc.lockCache.items K2 = m.sc.lockCache.items K2 ∧
      (∀ i, (ComputeIfAbsent m K f ttl).state.held i = m.held i) ∧
      (ComputeIfAbsent ((ComputeIfAbsent m K f ttl).state.advance wait) K2 g ttl2).outcome =
        (ComputeIfAbsent (m.atTime ((ComputeIfAbsent m K f ttl).state.now + wait)) K2 g
          ttl2).outcome ∧
      (ComputeIfAbsent ((ComputeIfAbsent m K f ttl).state.advance wait) K2 g ttl2).invoked =
        (ComputeIfAbsent (m.atTime ((ComputeIfAbsent m K f ttl).state.now + wait)) K2 g
          ttl2).invoked := by
  obtain ⟨hc, hl⟩ := ComputeIfAbsent_frame m K K2 f ttl (Ne.symm hne)
  obtain ⟨-, hidle1⟩ := ComputeIfAbsent_idle m K f ttl hidle
  have hidleA : ((ComputeIfAbsent m K f ttl).state.advance wait).Idle := fun i => hidle1 i
  have hidleB : (m.atTime ((ComputeIfAbsent m K f ttl).state.now + wait)).Idle :=
    fun i => hidle i
  obtain ⟨hoA, hiA⟩ := ComputeIfAbsent_decided_by_Get _ K2 g ttl2 hidleA
  obtain ⟨hoB, hiB⟩ := ComputeIfAbsent_decided_by_Get _ K2 g ttl2 hidleB
  have hget : ((ComputeIfAbsent m K f ttl).state.advance wait).sc.cache.Get
      ((ComputeIfAbsent m K f ttl).state.advance wait).now K2 =
      (m.atTime ((ComputeIfAbsent m K f ttl).state.now + wait)).sc.cache.Get
        (m.atTime ((ComputeIfAbsent m K f ttl).state.now + wait)).now K2 := by
    show Cache.Get (ComputeIfAbsent m K f ttl).state.sc.cache _ K2 = Cache.Get m.sc.cache _ K2
    unfold Cache.Get
    rw [hc]
    rfl
  refine ⟨hc, hl, fun i => by rw [hidle1 i, hidle i], ?_, ?_⟩
  · rw [hoA, hoB, hget]
  · rw [hiA, hiB, hget]

/-- C7 at a call for `"acct2"` on `warmMachine` and a later call for `"acct1"`. -/
theorem C7_witness :
    "acct2" ≠ "acct1" ∧ warmMachine.Idle ∧
      (ComputeIfAbsent warmMachine "acct2" otherFn 10).state.sc.cache.items "acct1" =
        warmMachine.sc.cache.items "acct1" ∧
      (ComputeIfAbsent warmMachine "acct2" otherFn 10).state.sc.lockCache.items "acct1" =
        warmMachine.sc.lockCache.items "acct1" ∧
      (∀ i, (ComputeIfAbsent warmMachine "acct2" otherFn 10).state.held i =
        warmMachine.held i) ∧
      (ComputeIfAbsent ((ComputeIfAbsent warmMachine "acct2" otherFn 10).state.advance 5)
        "acct1" failFn 20).outcome =
        (ComputeIfAbsent
          (warmMachine.atTime ((ComputeIfAbsent warmMachine "acct2" otherFn 10).state.now + 5))
          "acct1" failFn 20).outcome ∧
      (ComputeIfAbsent ((ComputeIfAbsent warmMachine "acct2" otherFn 10).state.advance 5)
        "acct1" failFn 20).invoked =
        (ComputeIfAbsent
          (warmMachine.atTime ((ComputeIfAbsent warmMachine "acct2" otherFn 10).state.now + 5))
          "acct1" failFn 20).invoked :=
  ⟨by decide, fun _ => rfl,
    C7_key_isolation warmMachine "acct2" "acct1" otherFn failFn 10 20 5 (by decide)
      (fun _ => rfl)⟩

/-! ## Concurrent callers -/

/-- A caller that runs alone, operation by operation, on a machine with no
call in progress ends with the outcome, the number of invocations and the
machine of `ComputeIfAbsent`. -/
theorem solo_caller_agrees {V E : Type} (m : Machine V) (key : String)
    (f : ComputeFunc V E) (duration : Duration) (hidle : m.Idle) :
    ∃ schedule : List Event,
      System.exec { machine := m, threads := [Thread.new key f duration], invocations := 0 }
          schedule =
        some
          { machine := (ComputeIfAbsent m key f duration).state
            threads :=
              [{ key := key, computeFunc := f, duration := duration
                 pc := .done (ComputeIfAbsent m key f duration).outcome }]
            invocations := (ComputeIfAbsent m key f duration).invoked } := by
  cases hl : m.sc.lockCache.Get m.now key with
  | some lock =>
    have hfree : m.held lock = false := hidle lock
    cases hg : m.sc.cache.Get m.now key with
    | some val =>
      refine ⟨[.run 0, .run 0, .run 0, .run 0], ?_⟩
      simp [System.exec, System.step, Thread.step, Thread.new, ComputeIfAbsent, ensureLock,
        underLock, mutexLock, mutexUnlock, hl, hg, hfree]
    | none =>
      cases hr : f.result with
      | value v =>
        refine ⟨[.run 0, .run 0, .run 0, .run 0, .tick f.elapsed, .run 0, .run 0, .run 0], ?_⟩
        simp [System.exec, System.step, Thread.step, Thread.new, ComputeIfAbsent, ensureLock,
          underLock, mutexLock, mutexUnlock, Machine.advance, hl, hg, hfree, hr]
      | panic e =>
        refine ⟨[.run 0, .run 0, .run 0, .run 0, .tick f.elapsed, .run 0, .run 0], ?_⟩
        simp [System.exec, System.step, Thread.step, Thread.new, ComputeIfAbsent, ensureLock,
          underLock, mutexLock, mutexUnlock, Machine.advance, hl, hg, hfree, hr]
  | none =>
    cases hg : m.sc.cache.Get m.now key with
    | some val =>
      refine ⟨[.run 0, .run 0, .run 0, .run 0, .run 0], ?_⟩
      simp [System.exec, System.step, Thread.step, Thread.new, ComputeIfAbsent, ensureLock,
        installLock, underLock, mutexLock, mutexUnlock, hl, hg]
    | none =>
      cases hr : f.result with
      | value v =>
        refine ⟨[.run 0, .run 0, .run 0, .run 0, .run 0, .tick f.elapsed, .run 0, .run 0,
          .run 0], ?_⟩
        simp [System.exec, System.step, Thread.step, Thread.new, ComputeIfAbsent, ensureLock,
          installLock, underLock, mutexLock, mutexUnlock, Machine.advance, hl, hg, hr]
      | panic e =>
        refine ⟨[.run 0, .run 0, .run 0, .run 0, .run 0, .tick f.elapsed, .run 0, .run 0], ?_⟩
        simp [System.exec, System.step, Thread.step, Thread.new, ComputeIfAbsent, ensureLock,
          installLock, underLock, mutexLock, mutexUnlock, Machine.advance, hl, hg, hr]

/-- C8: two concurrent callers with the same key on a cold cache, under the
schedule in which both look the lock handle up before either installs one:
after `raceUntilCompute` two invocations of `computeFunc` have started and
both are in flight at the same instant; at the end of the schedule both
calls have returned and `computeFunc` has been invoked twice, not once. -/
theorem C8_two_callers_compute_twice :
    ((System.cold raceCallers).exec raceUntilCompute).map
        (fun s => (s.invocations, s.inFlight)) = some (2, 2) ∧
      ((System.cold raceCallers).exec (raceUntilCompute ++ raceFinish)).map
        (fun s => (s.invocations, s.threads.map Thread.result)) =
        some (2, [some (.returned "token"), some (.returned "token")]) := by
  constructor <;> rfl

/-! ## The listing adapter -/

/-- Without overflow the start index of page `p` is `p * 20`. -/
theorem StartIndex_eq_mul (p : Int) (h0 : 0 ≤ p) (h1 : p * 20 < 2 ^ 63) :
    StartIndex p = p * 20 := by
  unfold StartIndex wrapInt
  omega

/-- Whatever the total, the items 0 to 19 are in the window of no page
numbered from 1 up to the page count reported. -/
theorem first_items_on_no_page (T i p : Int) (hT : 0 ≤ T) (hT2 : T < 2 ^ 63) (hi : 0 ≤ i)
    (hi2 : i < 20) (hp : 1 ≤ p) (hp2 : p ≤ PageCount T) :
    ¬ (StartIndex p ≤ i ∧ i < StartIndex p + pageSize) := by
  have hdiv : Int.tdiv T 20 = T / 20 := Int.tdiv_eq_ediv hT (by decide)
  have hcount : PageCount T = T / 20 + 1 := by
    unfold PageCount wrapInt
    rw [hdiv]
    omega
  rw [hcount] at hp2
  unfold StartIndex pageSize wrapInt
  by_cases hov : p * 20 < 2 ^ 63
  · have hmod : (p * 20 + 2 ^ 63) % 2 ^ 64 = p * 20 + 2 ^ 63 :=
      Int.emod_eq_of_lt (by omega) (by omega)
    rw [hmod]
    omega
  · have hmod : (p * 20 + 2 ^ 63) % 2 ^ 64 = p * 20 + 2 ^ 63 - 2 ^ 64 := by
      rw [← Int.emod_sub_cancel (p * 20 + 2 ^ 63) (2 ^ 64)]
      exact Int.emod_eq_of_lt (by omega) (by omega)
    rw [hmod]
    omega

/-- On an account URL with an explicit port, `upstreamUrl` returns the
scheme, the host with its port, and the port once more; that is never the
origin of the URL. -/
theorem upstreamUrl_explicit_port (decodeString : String → Except String String)
    (parse : String → Except String URL) (account raw s h p : String)
    (hd : decodeString account = .ok raw)
    (hp : parse raw = .ok { Scheme := s, Host := h ++ ":" ++ p, Port := p }) :
    upstreamUrl decodeString parse account = .ok (s ++ "://" ++ (h ++ ":" ++ p) ++ ":" ++ p) ∧
      upstreamUrl decodeString parse account ≠ .ok (s ++ "://" ++ (h ++ ":" ++ p)) := by
  have h1 : upstreamUrl decodeString parse account =
      .ok (s ++ "://" ++ (h ++ ":" ++ p) ++ ":" ++ p) := by
    simp [upstreamUrl, hd, hp]
  refine ⟨h1, ?_⟩
  rw [h1]
  intro hc
  injection hc with hc
  have hlen := congrArg String.length hc
  simp only [String.length_append] at hlen
  have hcolon : ":".length = 1 := rfl
  omega

/-- C9: the page the handler asks for by default, page 1, starts at item 20,
and for a listing of one record the only page reported (page 1 of 1) has the
window from 20 to 40, so no page from 1 to `PageCount 1` contains item 0. -/
theorem C9_first_page_skips_the_first_items :
    StartIndex defaultPage = 20 ∧ PageCount 1 = 1 ∧
      ¬ ∃ p : Int,
        1 ≤ p ∧ p ≤ PageCount 1 ∧ StartIndex p ≤ 0 ∧ 0 < StartIndex p + pageSize := by
  have h1 : StartIndex 1 = 20 := by decide
  have h2 : PageCount 1 = 1 := by decide
  refine ⟨h1, h2, ?_⟩
  rintro ⟨p, hp1, hp2, hp3, -⟩
  rw [h2] at hp2
  have hp : p = 1 := le_antisymm hp2 hp1
  subst hp
  rw [h1] at hp3
  exact absurd hp3 (by decide)

/-- C10: on an account URL with scheme `http`, hostname `emby.local` and
explicit port `8096`, `upstreamUrl` returns `http://emby.local:8096:8096`,
with the port twice, and not the origin `http://emby.local:8096`. -/
theorem C10_port_appended_twice :
    upstreamUrl sampleDecodeString sampleParse sampleAccount =
        .ok "http://emby.local:8096:8096" ∧
      upstreamUrl sampleDecodeString sampleParse sampleAccount ≠
        .ok ("http" ++ "://" ++ "emby.local" ++ ":" ++ "8096") := by
  have h : upstreamUrl sampleDecodeString sampleParse sampleAccount =
      .ok "http://emby.local:8096:8096" := by rfl
  refine ⟨h, ?_⟩
  rw [h]
  intro hc
  injection hc with hc
  exact absurd hc (by decide)

end EmbyVod
